import Mathlib

/-!
Verification of the minimessage parser (minimessage.go) against its
natural-language specification.

The Go source is shallowly embedded below.  Pure string manipulation is
mapped to Lean `String`/`List Char` operations with the same semantics as
the Go standard library calls used by the source (`strings.Split` =
`String.splitOn` for a non-empty separator, `strings.HasPrefix` =
character-list prefix, and so on).  Go runtime panics (out-of-range slice
or index accesses) are made explicit as `Except` errors of kind
`RunErr.indexOutOfRange`; the recursion of `Parse` through the
`show_entity` hover branch is handled with a fuel parameter.  Floating
point interpolation in the gradient engine is modelled with exact
rational arithmetic, with the final conversion back to a colour byte
rounded to the nearest integer as the specification describes.
-/

/-- A colour as an RGB byte triple (the value carried by both named and
hex colours of the external colour library). -/
structure RGB where
  r : Nat
  g : Nat
  b : Nat
deriving DecidableEq, Repr

/-- Tri-state boolean attribute of a style: unset (inherit), true, false.
The zero value of the Go component library is `unset`. -/
inductive Tri where
  | unset
  | yes
  | no
deriving DecidableEq, Repr

/-- Click event variants of the component library, each with one string
payload (mirrors `c.ChangePage`, `c.CopyToClipboard`, ...). -/
inductive ClickEvent where
  | changePage (v : String)
  | copyToClipboard (v : String)
  | openFile (v : String)
  | openUrl (v : String)
  | runCommand (v : String)
  | suggestCommand (v : String)
deriving DecidableEq, Repr

/-- Hover event variants, parametrised by the text-node type to allow the
nested occurrence of `Text` inside styles.  `showItem` carries the item
type key, integer count and nbt payload; `showEntity` carries the entity
type key, the uuid token and a name node. -/
inductive HoverEventG (T : Type) where
  | showText (text : T)
  | showItem (item : String) (count : Int) (nbt : String)
  | showEntity (etype : String) (id : String) (name : T)

/-- A style (`c.Style`), parametrised by the text-node type.  The default
field values are the Go zero values. -/
structure StyleG (T : Type) where
  color : Option RGB := none
  bold : Tri := .unset
  italic : Tri := .unset
  underlined : Tri := .unset
  strikethrough : Tri := .unset
  obfuscated : Tri := .unset
  clickEvent : Option ClickEvent := none
  hoverEvent : Option (HoverEventG T) := none

/-- A text node (`c.Text`): content, style and the `Extra` children.
Children are `Option Text` because the Go slice `[]c.Component` may hold
nil pointers (the parser appends `modify`'s result even when it is nil). -/
inductive Text where
  | mk (content : String) (style : StyleG Text) (extra : List (Option Text))

/-- The style type instantiated at text nodes. -/
abbrev Style := StyleG Text

def Text.content : Text → String
  | .mk c _ _ => c

def Text.style : Text → Style
  | .mk _ s _ => s

def Text.extra : Text → List (Option Text)
  | .mk _ _ e => e

/-- Failure modes of the embedded runner: a Go runtime panic from an
out-of-range index or slice access, and exhaustion of the recursion fuel
(never reached at the fuel budget used by `Parse`). -/
inductive RunErr where
  | indexOutOfRange
  | outOfFuel
deriving DecidableEq, Repr

/-- Error values of the colour resolver (`color.Hex` and `fromName`). -/
inductive ColorErr where
  | invalidHex
  | unknownColorName (name : String)
deriving DecidableEq, Repr

/-- Splitting of a character list at every occurrence of the separator
character. -/
def splitChar (c : Char) : List Char → List (List Char)
  | [] => [[]]
  | x :: xs =>
    let r := splitChar c xs
    if x == c then [] :: r else (x :: r.headD []) :: r.tail

/-- Go `strings.Split` for a one-character separator (the source only
splits on `<`, `>` and `:`): the input is cut at every occurrence of the
separator, yielding one more piece than there are occurrences. -/
def goSplit (s : String) (sep : Char) : List String :=
  (splitChar sep s.data).map fun l => ⟨l⟩

/-- Go `strings.HasPrefix`, as a prefix test on the character lists (the
arguments used by the source are ASCII, where character-prefix and
byte-prefix coincide). -/
def hasPre (s pre : String) : Bool :=
  pre.data.isPrefixOf s.data

/-- Go `strings.EqualFold`, modelled as comparison after lower-casing;
adequate for the ASCII names the registry holds. -/
def equalFold (a b : String) : Bool :=
  a.data.map Char.toLower == b.data.map Char.toLower

/-- The numeric value of a nonempty all-digit character list. -/
def digitsVal (l : List Char) : Option Nat :=
  match l with
  | [] => none
  | _ =>
    l.foldl
      (fun acc c =>
        acc.bind fun n =>
          if '0' ≤ c ∧ c ≤ '9' then some (n * 10 + (c.toNat - '0'.toNat)) else none)
      (some 0)

/-- Go `strconv.Atoi` with the error discarded as in the source: an
optionally signed decimal integer, with 0 for a malformed input. -/
def atoi (s : String) : Int :=
  match s.data with
  | '-' :: ds => ((digitsVal ds).map fun n => -(n : Int)).getD 0
  | '+' :: ds => ((digitsVal ds).map fun n => (n : Int)).getD 0
  | ds => ((digitsVal ds).map fun n => (n : Int)).getD 0

/-- Go `len` of a string: its UTF-8 byte length. -/
def byteLen (s : String) : Nat :=
  s.data.foldl (fun n c => n + c.utf8Size) 0

/-- Modelled from the spec: the name registry `color.Names` of the
external colour library — the fixed map from Minecraft colour names to
their RGB values.  Represented as an association list; the keys are the
canonical display strings the library's `String()` returns. -/
def Names : List (String × RGB) :=
  [("black", ⟨0, 0, 0⟩), ("dark_blue", ⟨0, 0, 170⟩),
   ("dark_green", ⟨0, 170, 0⟩), ("dark_aqua", ⟨0, 170, 170⟩),
   ("dark_red", ⟨170, 0, 0⟩), ("dark_purple", ⟨170, 0, 170⟩),
   ("gold", ⟨255, 170, 0⟩), ("gray", ⟨170, 170, 170⟩),
   ("dark_gray", ⟨85, 85, 85⟩), ("blue", ⟨85, 85, 255⟩),
   ("green", ⟨85, 255, 85⟩), ("aqua", ⟨85, 255, 255⟩),
   ("red", ⟨255, 85, 85⟩), ("light_purple", ⟨255, 85, 255⟩),
   ("yellow", ⟨255, 255, 85⟩), ("white", ⟨255, 255, 255⟩)]

/-- The registry's white colour, used to seed the style stack. -/
def white : RGB := ⟨255, 255, 255⟩

/-- One hex digit (both cases accepted). -/
def hexDigitVal (ch : Char) : Option Nat :=
  if '0' ≤ ch ∧ ch ≤ '9' then some (ch.toNat - '0'.toNat)
  else if 'a' ≤ ch ∧ ch ≤ 'f' then some (ch.toNat - 'a'.toNat + 10)
  else if 'A' ≤ ch ∧ ch ≤ 'F' then some (ch.toNat - 'A'.toNat + 10)
  else none

/-- Modelled from the spec: the external library's `color.Hex` — a `#`
followed by exactly six hex digits parses to an RGB value, anything else
is an invalid-hex error. -/
def colorHex (s : String) : Except ColorErr RGB :=
  match s.data with
  | '#' :: ds =>
    match ds.mapM hexDigitVal with
    | some [h1, h2, h3, h4, h5, h6] =>
      .ok ⟨h1 * 16 + h2, h3 * 16 + h4, h5 * 16 + h6⟩
    | _ => .error .invalidHex
  | _ => .error .invalidHex

/-- `fromName` of the source: exact key lookup in the registry, then a
case-insensitive scan against each entry's display string, else an
unknown-colour-name error.  (Go iterates the map in unspecified order;
the registry's display strings are pairwise distinct even up to case, so
at most one entry can match and the order is immaterial.) -/
def fromName (name : String) : Except ColorErr RGB :=
  match Names.find? (fun e => e.1 == name) with
  | some e => .ok e.2
  | none =>
    match Names.find? (fun e => equalFold e.1 name) with
    | some e => .ok e.2
    | none => .error (.unknownColorName name)

/-- `parseColor` of the source: hex literal when the token starts with
`#`, otherwise a registry lookup. -/
def parseColor (name : String) : Except ColorErr RGB :=
  if hasPre name "#" then colorHex name else fromName name

/-- An exact rational value, kept as an unnormalised numerator /
denominator pair (the denominator is positive in every value the gradient
engine builds).  This models the float64 arithmetic of the source with
exact rational arithmetic; at the inputs the claims evaluate, every
intermediate value is an exact dyadic-or-small rational where the float
computation agrees. -/
structure Frac where
  num : ℤ
  den : ℤ
deriving DecidableEq, Repr

/-- The rational view of an integer. -/
def fOfInt (n : ℤ) : Frac := ⟨n, 1⟩

def fAdd (a b : Frac) : Frac := ⟨a.num * b.den + b.num * a.den, a.den * b.den⟩

def fSub (a b : Frac) : Frac := ⟨a.num * b.den - b.num * a.den, a.den * b.den⟩

def fMul (a b : Frac) : Frac := ⟨a.num * b.num, a.den * b.den⟩

/-- Division (only used with a positive divisor). -/
def fDiv (a b : Frac) : Frac := ⟨a.num * b.den, a.den * b.num⟩

/-- Value comparison (sound for positive denominators). -/
def fLe (a b : Frac) : Bool := a.num * b.den ≤ b.num * a.den

/-- Value equality (sound for positive denominators). -/
def fEq (a b : Frac) : Bool := a.num * b.den == b.num * a.den

def fLtZero (a : Frac) : Bool := a.num < 0

/-- `math.Floor` on the exact model: floor division of the numerator by
the (positive) denominator. -/
def fFloor (a : Frac) : ℤ := Int.fdiv a.num a.den

/-- Go's float-to-int conversion `int(x)`: truncation toward zero. -/
def gotrunc (a : Frac) : ℤ := Int.tdiv a.num a.den

/-- A colour with exact rational channels in `[0, 1]`, the model of the
library's float-valued `color.RGB` used by the gradient engine. -/
structure RGBq where
  r : Frac
  g : Frac
  b : Frac
deriving DecidableEq, Repr

/-- `color.Make`: conversion of a byte colour to the float (here exact
rational) channel representation. -/
def colorMake (c : RGB) : RGBq :=
  ⟨fDiv (fOfInt c.r) (fOfInt 255), fDiv (fOfInt c.g) (fOfInt 255), fDiv (fOfInt c.b) (fOfInt 255)⟩

/-- Go `math.Min` on the exact rational model. -/
def minQ (a b : Frac) : Frac :=
  if fLe a b then a else b

/-- Rounding of a rational to the nearest integer (used when a channel is
converted back to a byte by the hex round trip of the gradient engine;
the spec fixes round-to-nearest). -/
def qRound (a : Frac) : ℤ :=
  fFloor (fAdd a ⟨1, 2⟩)

/-- Indexing of a colour slice by a (possibly negative) Go int; a
negative or too large index is a runtime panic. -/
def listIdx (l : List RGBq) (i : ℤ) : Option RGBq :=
  if i < 0 then none else l.get? i.toNat

/-- `lerpInt` of the source: `a*t + b*(1-t)`. -/
def lerpInt (t a b : Frac) : Frac :=
  fAdd (fMul a t) (fMul b (fSub (fOfInt 1) t))

/-- `lerpColor` of the source on the exact rational model.  `t` is
clamped above at 1; at `t = 1` the last stop is returned directly
(indexing `colors[len-1]`, a panic on an empty slice); otherwise the
position is scaled into the stop sequence and the two neighbouring stops
are interpolated channel-wise.  Out-of-range stop indices (empty or
single-stop slices) are runtime panics as in Go. -/
def lerpColor (t : Frac) (colors : List RGBq) : Except RunErr RGBq :=
  let t := minQ t (fOfInt 1)
  if fEq t (fOfInt 1) then
    match colors.get? (colors.length - 1) with
    | some cl => .ok cl
    | none => .error .indexOutOfRange
  else
    let colorT : Frac := fMul t (fOfInt ((colors.length : ℤ) - 1))
    let newT : Frac := fSub colorT (fOfInt (fFloor colorT))
    match listIdx colors (gotrunc colorT), listIdx colors (gotrunc (fAdd colorT (fOfInt 1))) with
    | some lastColor, some nextColor =>
      .ok ⟨lerpInt newT nextColor.r lastColor.r,
           lerpInt newT nextColor.g lastColor.g,
           lerpInt newT nextColor.b lastColor.b⟩
    | _, _ => .error .indexOutOfRange

/-- The hex round trip `color.Hex(rgb.Hex())` applied to each gradient
leaf colour: the rational channels are scaled to bytes and rounded to the
nearest integer (spec: "rounded to nearest integer byte"). -/
def hexRound (c : RGBq) : RGB :=
  ⟨(qRound (fMul c.r (fOfInt 255))).toNat,
   (qRound (fMul c.g (fOfInt 255))).toNat,
   (qRound (fMul c.b (fOfInt 255))).toNat⟩

/-- `gradient` of the source: one leaf per character of `content` (Go
ranges over the runes), with parameter `t = i / len(content)` where the
denominator is the byte length, colour obtained from `lerpColor` and the
hex round trip, and all other style fields copied from the base style.
The container node has empty content and the zero style. -/
def gradientF (content : String) (style : Style) (colors : List RGBq) : Except RunErr Text :=
  let n : Frac := fOfInt (byteLen content)
  (content.toList.enum.mapM fun p =>
      (lerpColor (fDiv (fOfInt p.1) n) colors).map fun cq =>
        some (Text.mk (String.singleton p.2) { style with color := some (hexRound cq) } [])).map
    fun comps => Text.mk "" {} comps

/-- The colour-resolution loop of the gradient branch of `modify`: each
name is resolved with `parseColor`; at the first error the Go code prints
it and returns nil, modelled as `none`. -/
def resolveColors : List String → Option (List RGB)
  | [] => some []
  | n :: rest =>
    match parseColor n with
    | .error _ => none
    | .ok cl => (resolveColors rest).map (cl :: ·)

/-- The external Minecraft key parser `keyCommon.Parse`, whose error the
source discards; modelled as the raw token. -/
def goKeyParse (s : String) : String := s

/-- The external `uuid.Parse`, whose error the source discards; modelled
as the raw token.  (The branch using it is unreachable: the preceding
index access always panics first.) -/
def goUuidParse (s : String) : String := s

/-- `modify` of the source.  `pf` is the top-level parse function used by
the recursive `show_entity` branch.  The result pairs the produced node
(`none` models the nil pointer the Go code returns after printing a
colour error) with the updated style (`modify` mutates the style through
a pointer; the caller stores the update back at the top of the stack).
Branches are tried in the order of the Go `switch`.  Index accesses that
can be out of range in Go (`Split(key, ":")[1]`, `clickKey[2]`,
`hoverKey[2]`, `showEntityKeys[1]`) are explicit panics. -/
def modifyCore (pf : String → Except RunErr Text) (key content : String) (style : Style) :
    Except RunErr (Option Text × Style) :=
  if hasPre key "#" then
    match parseColor key with
    | .error _ => .ok (none, style)
    | .ok col =>
      let style := { style with color := some col }
      .ok (some (Text.mk content style []), style)
  else if hasPre key "color" then
    match (goSplit key ':').get? 1 with
    | none => .error .indexOutOfRange
    | some colorName =>
      match parseColor colorName with
      | .error _ => .ok (none, style)
      | .ok col =>
        let style := { style with color := some col }
        .ok (some (Text.mk content style []), style)
  else if key = "bold" ∨ key = "b" then
    let style := { style with bold := Tri.yes }
    .ok (some (Text.mk content style []), style)
  else if key = "italic" ∨ key = "em" ∨ key = "i" then
    let style := { style with italic := Tri.yes }
    .ok (some (Text.mk content style []), style)
  else if key = "underlined" ∨ key = "u" then
    let style := { style with underlined := Tri.yes }
    .ok (some (Text.mk content style []), style)
  else if key = "strikethrough" ∨ key = "st" then
    let style := { style with strikethrough := Tri.yes }
    .ok (some (Text.mk content style []), style)
  else if key = "obfuscated" ∨ key = "obf" then
    let style := { style with obfuscated := Tri.yes }
    .ok (some (Text.mk content style []), style)
  else if hasPre key "click" then
    let parts := goSplit key ':'
    match parts.get? 1 with
    | none => .error .indexOutOfRange
    | some action =>
      match parts.get? 2 with
      | none => .error .indexOutOfRange
      | some value =>
        let style :=
          match action with
          | "change_page" => { style with clickEvent := some (.changePage value) }
          | "copy_to_clipboard" => { style with clickEvent := some (.copyToClipboard value) }
          | "open_file" => { style with clickEvent := some (.openFile value) }
          | "open_url" => { style with clickEvent := some (.openUrl value) }
          | "run_command" => { style with clickEvent := some (.runCommand value) }
          | "suggest_command" => { style with clickEvent := some (.suggestCommand value) }
          | _ => style
        .ok (some (Text.mk content style []), style)
  else if hasPre key "hover" then
    let parts := goSplit key ':'
    match parts.get? 1 with
    | none => .error .indexOutOfRange
    | some action =>
      match parts.get? 2 with
      | none => .error .indexOutOfRange
      | some value =>
        (match action with
         | "show_text" =>
           (.ok { style with hoverEvent := some (.showText (Text.mk value {} [])) } :
             Except RunErr Style)
         | "show_item" =>
           let ks := goSplit value ':'
           let itemType := goKeyParse (ks.headD "")
           let ci : Int × String :=
             if 2 ≤ ks.length then
               (atoi (ks.getD 1 ""), if ks.length = 3 then ks.getD 2 "" else "")
             else (0, "")
           (.ok { style with hoverEvent := some (.showItem itemType ci.1 ci.2) } :
             Except RunErr Style)
         | "show_entity" =>
           let ks := goSplit value ':'
           let etype := goKeyParse (ks.headD "")
           (match ks.get? 1 with
            | none => .error .indexOutOfRange
            | some uuidStr =>
              (if ks.length = 3 then pf (ks.getD 2 "") else .ok (Text.mk "" {} [])).map
                fun nm =>
                  { style with hoverEvent := some (.showEntity etype (goUuidParse uuidStr) nm) } :
             Except RunErr Style)
         | _ => (.ok style : Except RunErr Style)).map
          fun style => (some (Text.mk content style []), style)
  else if hasPre key "gradient" then
    let colorNames := (goSplit key ':').drop 1
    match resolveColors colorNames with
    | none => .ok (none, style)
    | some cs => (gradientF content style (cs.map colorMake)).map fun t => (some t, style)
  else
    .ok (some (Text.mk "" {} []), style)

/-- One iteration of the loop of `Parse` over a fragment `s` of the input
(the text between two `<`).  The accumulator pairs the style stack (top
at the head; the Go slice keeps the top at the end) with the component
list.  An empty fragment is skipped.  Otherwise the fragment is split on
`>`; a key starting with `/` pops the stack (Go slices to `len-1`, a
bounds panic when empty), any other key pushes a value copy of the top
(reading `styles[len-1]`, a panic when empty).  Then `modify` is called
with `split[1]` (a panic when the fragment has no `>`) and the address of
the stack's top (a panic when the stack emptied), and its result — nil or
not — is appended to the components. -/
def stepCore (pf : String → Except RunErr Text)
    (acc : List Style × List (Option Text)) (s : String) :
    Except RunErr (List Style × List (Option Text)) :=
  if s = "" then .ok acc
  else
    let split := goSplit s '>'
    let key := split.headD ""
    let stackRes : Except RunErr (List Style) :=
      if hasPre key "/" then
        match acc.1 with
        | [] => .error .indexOutOfRange
        | _ :: t => .ok t
      else
        match acc.1 with
        | [] => .error .indexOutOfRange
        | top :: _ => .ok (top :: acc.1)
    stackRes.bind fun st =>
      match split.get? 1 with
      | none => .error .indexOutOfRange
      | some content =>
        match st with
        | [] => .error .indexOutOfRange
        | top :: rest =>
          (modifyCore pf key content top).map fun r => (r.2 :: rest, acc.2 ++ [r.1])

/-- The seed style pushed before any tag is processed:
`c.Style{Color: color.White}`. -/
def seedStyle : Style := { color := some white }

/-- `Parse` of the source with an explicit recursion fuel: the input is
split on `<`, the fragments are folded through `stepCore`, and the
components are wrapped in a root node with empty content and zero style. -/
def ParseF : Nat → String → Except RunErr Text
  | 0, _ => .error .outOfFuel
  | fuel + 1, mini =>
    ((goSplit mini '<').foldlM (stepCore (ParseF fuel)) ([seedStyle], [])).map
      fun acc => Text.mk "" {} acc.2

/-- The parse entry point.  The fuel only bounds the nesting of
`show_entity` hover recursion (which in fact always panics before
recursing), so one unit beyond the input length is ample. -/
def Parse (mini : String) : Except RunErr Text :=
  ParseF (mini.length + 1) mini

/-- The fragment loop of `Parse` as a function of an arbitrary parse
callback, for stating invariants of a run. -/
def runFrags (pf : String → Except RunErr Text) (frags : List String)
    (acc : List Style × List (Option Text)) :
    Except RunErr (List Style × List (Option Text)) :=
  frags.foldlM (stepCore pf) acc

/-- C1: the claim says a failed colour token (unknown name or invalid
hex) must surface a recoverable error from the parse entry point.  The
code instead prints the error, `modify` returns a nil node, and `Parse`
appends the nil and succeeds: at both failing inputs the result is an
`ok` root whose single child is the nil component — silent continuation
with partial state, not an error. -/
theorem c1_color_error_not_surfaced :
    Parse "<color:nope>x" = .ok (Text.mk "" {} [none]) ∧
    Parse "<#ff00f>x" = .ok (Text.mk "" {} [none]) :=
  ⟨rfl, rfl⟩

/-- C2: the claim says an extra close tag fails with a recoverable
StackUnderflowError.  The code instead slices the style stack to empty
and then reads `styles[len(styles)-1]`, an index-out-of-range runtime
panic — a different failure mode. -/
theorem c2_extra_close_panics :
    Parse "</>" = .error .indexOutOfRange :=
  rfl

/-- C3: the claim says a fragment without `>` or a click/hover/color tag
missing its `:`-argument fails with a recoverable MalformedTagError.  The
code instead panics with index out of range in every such case
(`split[1]`, `clickKey[1]`, `hoverKey[2]`, `Split(key, ":")[1]`). -/
theorem c3_malformed_tag_panics :
    Parse "hello" = .error .indexOutOfRange ∧
    Parse "<bold hi" = .error .indexOutOfRange ∧
    Parse "<click>x" = .error .indexOutOfRange ∧
    Parse "<hover:show_text>y" = .error .indexOutOfRange ∧
    Parse "<color>x" = .error .indexOutOfRange :=
  ⟨rfl, rfl, rfl, rfl, rfl⟩

/-- C4 counterexample: `parse("<bold>hi</>")` does not have exactly one
child — the close fragment also emits an (empty) node, so the root has
two children; and the first child's colour is not unset but white,
inherited from the seed style. -/
theorem c4_counterexample :
    ((Parse "<bold>hi</>").map fun t => t.extra.length) = .ok 2 ∧
    ((Parse "<bold>hi</>").map fun t => t.extra.length) ≠ .ok 1 ∧
    ((Parse "<bold>hi</>").map fun t => (t.extra.headD none).map fun n => n.style.color) =
      .ok (some (some white)) := by
  refine ⟨rfl, ?_, rfl⟩
  intro h
  rw [show ((Parse "<bold>hi</>").map fun t => t.extra.length) = .ok 2 from rfl] at h
  exact absurd (Except.ok.inj h) (by decide)

/-- C4 (amended): `parse("<bold>hi</>")` returns a root with two
children: the first has content `"hi"`, bold set and colour white (the
seed colour), all other attributes unset; the second — emitted for the
close fragment — is an empty node with empty content and the zero
style. -/
theorem c4_two_children_white_bold :
    Parse "<bold>hi</>" =
      .ok (Text.mk "" {}
        [some (Text.mk "hi" { color := some white, bold := Tri.yes } []),
         some (Text.mk "" {} [])]) :=
  rfl

/-- C5: for the gradient with stops `[red, blue]` over the two-character
content `"ab"`, the first leaf (`t = 0`) is exactly red `(255,85,85)` and
the second leaf (`t = 1/2`) is exactly the channel-wise midpoint
`(170,85,170)` of red and blue — which differs from blue `(85,85,255)`,
so the last character never reaches the final stop. -/
theorem c5_gradient_endpoints :
    Parse "<gradient:red:blue>ab</>" =
      .ok (Text.mk "" {}
        [some (Text.mk "" {}
          [some (Text.mk "a" { color := some ⟨255, 85, 85⟩ } []),
           some (Text.mk "b" { color := some ⟨170, 85, 170⟩ } [])]),
         some (Text.mk "" {} [])]) ∧
    (⟨170, 85, 170⟩ : RGB) ≠ ⟨85, 85, 255⟩ :=
  ⟨rfl, by decide⟩

/-- C7 counterexample: an unrecognised tag key does contribute an entry
to the root's children — `modify` returns a fresh empty node (not nil,
and not nothing), which `Parse` appends — so the children count is 1,
not 0. -/
theorem c7_counterexample :
    ((Parse "<unknown>x").map fun t => t.extra.length) = .ok 1 ∧
    ((Parse "<unknown>x").map fun t => t.extra.length) ≠ .ok 0 := by
  refine ⟨rfl, ?_⟩
  intro h
  rw [show ((Parse "<unknown>x").map fun t => t.extra.length) = .ok 1 from rfl] at h
  exact absurd (Except.ok.inj h) (by decide)

/-- C7 (amended): for a fragment with an unrecognised key, the resolver
returns an empty node (empty content, zero style) which is appended as a
child of the root, and the literal content between the tag's `>` and the
next `<` is dropped: it appears nowhere in the output. -/
theorem c7_empty_node_appended :
    Parse "<unknown>x" = .ok (Text.mk "" {} [some (Text.mk "" {} [])]) :=
  rfl

/-- C8: hover construction.  The show_text part of the claim holds (a
leaf node of the literal value, not re-parsed).  But `hoverValue` is only
`hoverKey[2]`, one `:`-segment, so a show_item count can never be
forwarded (a supplied `:5` is silently dropped and the count is always
0), and show_entity always panics indexing `showEntityKeys[1]` — it can
never build its event, let alone recursively parse a name. -/
theorem c8_hover_construction_diverges :
    Parse "<hover:show_text:hi>x" =
      .ok (Text.mk "" {}
        [some (Text.mk "x"
          { color := some white, hoverEvent := some (.showText (Text.mk "hi" {} [])) } [])]) ∧
    Parse "<hover:show_item:stone:5>x" =
      .ok (Text.mk "" {}
        [some (Text.mk "x"
          { color := some white, hoverEvent := some (.showItem "stone" 0 "") } [])]) ∧
    Parse "<hover:show_entity:pig:4f0e>x" = .error .indexOutOfRange :=
  ⟨rfl, rfl, rfl⟩

/-- Destructuring of a successful `Except.map`. -/
theorem except_map_ok {α β ε : Type} (f : α → β) (e : Except ε α) (b : β)
    (h : Except.map f e = .ok b) : ∃ a, e = .ok a ∧ b = f a := by
  cases e with
  | error err => simp [Except.map] at h
  | ok a => exact ⟨a, rfl, by simpa [Except.map] using h.symm⟩

/-- A run over concatenated fragment lists is the run of the first part
followed by the run of the second from the reached state. -/
theorem runFrags_append (pf : String → Except RunErr Text) (l1 l2 : List String)
    (acc : List Style × List (Option Text)) :
    runFrags pf (l1 ++ l2) acc = (runFrags pf l1 acc).bind (runFrags pf l2) := by
  induction l1 generalizing acc with
  | nil => rfl
  | cons f fs ih =>
    show (stepCore pf acc f >>= fun a => runFrags pf (fs ++ l2) a) =
      ((stepCore pf acc f >>= fun a => runFrags pf fs a).bind (runFrags pf l2))
    cases h : stepCore pf acc f with
    | error e => rfl
    | ok a => exact ih a

/-- A single successful step only appends to the component list. -/
theorem step_mono (pf : String → Except RunErr Text)
    (acc : List Style × List (Option Text)) (s : String)
    (st' : List Style) (c' : List (Option Text))
    (h : stepCore pf acc s = .ok (st', c')) :
    ∃ tl, c' = acc.2 ++ tl := by
  unfold stepCore at h
  split at h
  · cases h; exact ⟨[], by simp⟩
  · split at h
    · dsimp only at h
      rw [ite_self] at h
      exact absurd h (by simp [Except.bind])
    · dsimp only at h
      split at h
      · simp only [Except.bind] at h
        split at h
        · exact absurd h (by simp)
        · split at h
          · exact absurd h (by simp)
          · obtain ⟨r, _, hb⟩ := except_map_ok _ _ _ h
            exact ⟨[r.1], congrArg Prod.snd hb⟩
      · simp only [Except.bind] at h
        split at h
        · exact absurd h (by simp)
        · obtain ⟨r, _, hb⟩ := except_map_ok _ _ _ h
          exact ⟨[r.1], congrArg Prod.snd hb⟩

/-- A successful run only appends to the component list. -/
theorem run_mono (pf : String → Except RunErr Text) (l : List String) :
    ∀ acc st' c', runFrags pf l acc = .ok (st', c') → ∃ tl, c' = acc.2 ++ tl := by
  induction l with
  | nil =>
    intro acc st' c' h
    cases h
    exact ⟨[], by simp⟩
  | cons f fs ih =>
    intro acc st' c' h
    have hb : (stepCore pf acc f >>= fun a => runFrags pf fs a) = .ok (st', c') := h
    cases hstep : stepCore pf acc f with
    | error e => rw [hstep] at hb; exact absurd hb (by simp [Bind.bind, Except.bind])
    | ok a =>
      rw [hstep] at hb
      obtain ⟨t2, h2⟩ := ih a st' c' hb
      obtain ⟨t1, h1⟩ := step_mono pf acc f a.1 a.2 (by rw [hstep])
      exact ⟨t1 ++ t2, by rw [h2, h1, List.append_assoc]⟩

/-- C6: style mutations are never retroactive.  If running the parser
loop over a first batch of fragments from the seed state yields the
component list `c1` and stack `st1`, then processing any further
fragments continues exactly from `(st1, c1)` — the mutated styles in
`st1` are what every later tag sees — and whatever the continuation
produces, the previously emitted nodes `c1` survive unchanged (with their
recorded styles) as a prefix of the final component list. -/
theorem c6_emitted_nodes_stable (pf : String → Except RunErr Text)
    (l1 l2 : List String) (st1 : List Style) (c1 : List (Option Text))
    (h : runFrags pf l1 ([seedStyle], []) = .ok (st1, c1)) :
    runFrags pf (l1 ++ l2) ([seedStyle], []) = runFrags pf l2 (st1, c1)
    ∧ ∀ stf cf, runFrags pf l2 (st1, c1) = .ok (stf, cf) → ∃ rest, cf = c1 ++ rest := by
  constructor
  · rw [runFrags_append, h]
    rfl
  · intro stf cf hf
    exact run_mono pf l2 (st1, c1) stf cf hf

/-- Witness for C6 at concrete fragments: after processing `"b>hi"` the
bold node is emitted; the continuation over `"i>x"` starts from the
mutated stack and keeps that node as an unchanged prefix. -/
theorem c6_witness :
    runFrags (ParseF 1) (["b>hi"] ++ ["i>x"]) ([seedStyle], []) =
      runFrags (ParseF 1) ["i>x"]
        ([{ color := some white, bold := Tri.yes }, seedStyle],
         [some (Text.mk "hi" { color := some white, bold := Tri.yes } [])])
    ∧ ∀ stf cf,
        runFrags (ParseF 1) ["i>x"]
          ([{ color := some white, bold := Tri.yes }, seedStyle],
           [some (Text.mk "hi" { color := some white, bold := Tri.yes } [])]) = .ok (stf, cf) →
        ∃ rest, cf = [some (Text.mk "hi" { color := some white, bold := Tri.yes } [])] ++ rest :=
  c6_emitted_nodes_stable (ParseF 1) ["b>hi"] ["i>x"]
    [{ color := some white, bold := Tri.yes }, seedStyle]
    [some (Text.mk "hi" { color := some white, bold := Tri.yes } [])] rfl

/-- A string whose data starts with `/` differs from any string whose
data starts with another character. -/
theorem sne_of_head {key : String} {t : List Char} (h : key.data = '/' :: t)
    (s : String) (c : Char) (cs : List Char) (hs : s.data = c :: cs) (hc : c ≠ '/') :
    key ≠ s := by
  intro he
  rw [he, hs] at h
  injection h with h1 _
  exact hc h1

/-- A key starting with `/` does not start with a tag-word starting with
any other character. -/
theorem pre_false {key : String} {t : List Char} (h : key.data = '/' :: t)
    (p : String) (c : Char) (cs : List Char) (hp : p.data = c :: cs)
    (hc : (c == '/') = false) : hasPre key p = false := by
  unfold hasPre
  rw [h, hp]
  simp [List.isPrefixOf, hc]

/-- A key with the `/` prefix has `/` as its first character. -/
theorem slash_data {key : String} (h : hasPre key "/" = true) :
    ∃ t, key.data = '/' :: t := by
  unfold hasPre at h
  cases hd : key.data with
  | nil => rw [hd] at h; simp [List.isPrefixOf] at h
  | cons c t =>
    rw [hd, show ("/".data) = ['/'] from rfl] at h
    simp [List.isPrefixOf] at h
    exact ⟨t, (congrArg (fun x => List.cons x t) h).symm⟩

/-- A key starting with `/` matches no branch of the tag resolver: the
result is the fresh empty node, the content argument is discarded and the
style is untouched. -/
theorem modify_slash (pf : String → Except RunErr Text) (key content : String)
    (style : Style) (t : List Char) (h : key.data = '/' :: t) :
    modifyCore pf key content style = .ok (some (Text.mk "" {} []), style) := by
  have h1 := pre_false h "#" '#' [] rfl rfl
  have h2 := pre_false h "color" 'c' ['o', 'l', 'o', 'r'] rfl rfl
  have h3 := pre_false h "click" 'c' ['l', 'i', 'c', 'k'] rfl rfl
  have h4 := pre_false h "hover" 'h' ['o', 'v', 'e', 'r'] rfl rfl
  have h5 := pre_false h "gradient" 'g' ['r', 'a', 'd', 'i', 'e', 'n', 't'] rfl rfl
  have e1 := sne_of_head h "bold" 'b' ['o', 'l', 'd'] rfl (by decide)
  have e2 := sne_of_head h "b" 'b' [] rfl (by decide)
  have e3 := sne_of_head h "italic" 'i' ['t', 'a', 'l', 'i', 'c'] rfl (by decide)
  have e4 := sne_of_head h "em" 'e' ['m'] rfl (by decide)
  have e5 := sne_of_head h "i" 'i' [] rfl (by decide)
  have e6 := sne_of_head h "underlined" 'u' ['n', 'd', 'e', 'r', 'l', 'i', 'n', 'e', 'd'] rfl (by decide)
  have e7 := sne_of_head h "u" 'u' [] rfl (by decide)
  have e8 := sne_of_head h "strikethrough" 's'
    ['t', 'r', 'i', 'k', 'e', 't', 'h', 'r', 'o', 'u', 'g', 'h'] rfl (by decide)
  have e9 := sne_of_head h "st" 's' ['t'] rfl (by decide)
  have e10 := sne_of_head h "obfuscated" 'o' ['b', 'f', 'u', 's', 'c', 'a', 't', 'e', 'd'] rfl (by decide)
  have e11 := sne_of_head h "obf" 'o' ['b', 'f'] rfl (by decide)
  simp only [modifyCore, h1, h2, h3, h4, h5]
  simp [e1, e2, e3, e4, e5, e6, e7, e8, e9, e10, e11]

/-- C10: a close fragment's trailing text is silently discarded.  For any
fragment that splits into a key starting with `/` and some content, the
parser's loop step pops the stack and appends an empty node (empty
content, zero style): the content after the close tag's `>` is never
emitted as the content of any node. -/
theorem c10_close_content_dropped (pf : String → Except RunErr Text)
    (s key content : String) (more : List String) (a b : Style)
    (rest : List Style) (comps : List (Option Text))
    (hsplit : goSplit s '>' = key :: content :: more)
    (hclose : hasPre key "/" = true) :
    stepCore pf (a :: b :: rest, comps) s =
      .ok (b :: rest, comps ++ [some (Text.mk "" {} [])]) := by
  obtain ⟨t, hdata⟩ := slash_data hclose
  have hs : s ≠ "" := by
    intro he
    rw [he, show goSplit "" '>' = [""] from rfl] at hsplit
    simp at hsplit
  unfold stepCore
  rw [if_neg hs, hsplit]
  dsimp only
  simp only [List.headD_cons, List.get?_cons_succ, List.get?_cons_zero]
  rw [if_pos hclose]
  simp only [Except.bind]
  rw [modify_slash pf key content b t hdata]
  rfl

/-- Witness for C10 at the concrete fragment `"/bold>tail"`: the trailing
text `"tail"` is dropped and an empty node is emitted. -/
theorem c10_witness :
    stepCore (ParseF 1) ([seedStyle, seedStyle], []) "/bold>tail" =
      .ok ([seedStyle], [some (Text.mk "" {} [])]) :=
  c10_close_content_dropped (ParseF 1) "/bold>tail" "/bold" "tail" [] seedStyle seedStyle
    [] [] rfl rfl

/-- C9: the colour resolver on a token not starting with `#` delegates to
the registry lookup, which (a) errors with the unknown-colour-name error
— never a default colour — whenever no entry matches the token exactly or
case-insensitively, (b) only ever returns the value of an entry whose key
matches exactly or whose display string matches case-insensitively, and
(c) returns the exactly-matching entry whenever one exists (exact match
takes precedence). -/
theorem c9_color_resolver (name : String) (h : hasPre name "#" = false) :
    parseColor name = fromName name
    ∧ (Names.all (fun e => !(e.1 == name) && !(equalFold e.1 name)) = true →
        fromName name = .error (.unknownColorName name))
    ∧ (∀ c, fromName name = .ok c →
        ∃ e ∈ Names, (e.1 = name ∨ equalFold e.1 name = true) ∧ e.2 = c)
    ∧ (∀ e ∈ Names, e.1 = name → fromName name = .ok e.2) := by
  refine ⟨by simp [parseColor, h], ?_, ?_, ?_⟩
  · intro hall
    have h1 : Names.find? (fun e => e.1 == name) = none := by
      rw [List.find?_eq_none]
      intro x hx
      have hx2 := List.all_eq_true.mp hall x hx
      simp only [Bool.and_eq_true, Bool.not_eq_true'] at hx2
      simp [hx2.1]
    have h2 : Names.find? (fun e => equalFold e.1 name) = none := by
      rw [List.find?_eq_none]
      intro x hx
      have hx2 := List.all_eq_true.mp hall x hx
      simp only [Bool.and_eq_true, Bool.not_eq_true'] at hx2
      simp [hx2.2]
    simp [fromName, h1, h2]
  · intro c hc
    unfold fromName at hc
    split at hc
    · rename_i e heq
      cases hc
      have hb := List.find?_some heq
      exact ⟨e, List.mem_of_find?_eq_some heq, Or.inl (eq_of_beq hb), rfl⟩
    · split at hc
      · rename_i e heq
        cases hc
        have hb := List.find?_some heq
        exact ⟨e, List.mem_of_find?_eq_some heq, Or.inr hb, rfl⟩
      · exact absurd hc (by simp)
  · intro e he hk
    have hkv : ∀ a ∈ Names, ∀ b ∈ Names, a.1 = b.1 → a = b := by decide
    cases hf : Names.find? (fun x => x.1 == name) with
    | none =>
      exfalso
      have := List.find?_eq_none.mp hf e he
      simp [hk] at this
    | some e' =>
      have he' := List.mem_of_find?_eq_some hf
      have hb := List.find?_some hf
      have hk' : e'.1 = name := eq_of_beq hb
      have hee : e = e' := hkv e he e' he' (hk.trans hk'.symm)
      unfold fromName
      rw [hf, hee]

/-- Witness for C9 at the concrete token `"not_a_color"`: no registry
entry matches, so the resolver fails with the unknown-colour-name error
rather than returning any default colour. -/
theorem c9_witness :
    fromName "not_a_color" = .error (.unknownColorName "not_a_color") :=
  (c9_color_resolver "not_a_color" rfl).2.1 (by decide)
